import Mathlib

/-!
Shallow embedding of the change-detection and notification core of
`rtconfig` (source file `rtconfig/manage.py`): the `Message` value object,
the `ConfigManager` with its backend-mediated `refresh`/`update_config`,
the module-level subscriber registry (`connected`, `connected_message`)
with its `register_connected_ws`/`remove_connected_ws` operations, and the
`notify_changed` dispatcher.

Python dictionaries are embedded as association lists (first occurrence
wins on lookup, as all reachable states have unique keys), Python sets as
duplicate-free lists, exceptions as `Option`-tagged results that also carry
the state left behind when the exception propagates, and the sequence of
`await client.send(...)` calls of one broadcast pass as the list of
(connection, payload) pairs it produces.
-/

namespace RtConfig

/-- JSON-representable scalar values appearing in a configuration document. -/
inductive JVal where
  | str : String → JVal
  | num : Int → JVal
  | bool : Bool → JVal
  | null : JVal
deriving DecidableEq

/-- A configuration document: a mapping of string keys to JSON values,
embedded as an association list (Python `dict`). -/
abbrev Doc := List (String × JVal)

/-- First-occurrence lookup in an association list: the embedding of
`d[k]` / `d.get(k)` on a Python `dict`. -/
def lookupKey {κ α : Type} [DecidableEq κ] (k : κ) : List (κ × α) → Option α
  | [] => none
  | (k', v) :: rest => if k' = k then some v else lookupKey k rest

/-- Replace the binding of `k` (first occurrence) or append it: the
embedding of `d[k] = v` on a Python `dict`. -/
def setEntry {κ α : Type} [DecidableEq κ] (k : κ) (v : α) :
    List (κ × α) → List (κ × α)
  | [] => [(k, v)]
  | (k', v') :: rest =>
      if k' = k then (k, v) :: rest else (k', v') :: setEntry k v rest

/-- Drop every binding of `k`: the embedding of `del d[k]` on a Python
`dict` (total; absence of the key is a no-op, matching a caught KeyError). -/
def eraseKey {κ α : Type} [DecidableEq κ] (k : κ) (l : List (κ × α)) :
    List (κ × α) :=
  l.filter (fun p => p.1 ≠ k)

/-- Serialize one JSON scalar to its textual form. -/
def serializeJVal : JVal → String
  | JVal.str s => "\"" ++ s ++ "\""
  | JVal.num n => toString n
  | JVal.bool b => toString b
  | JVal.null => "null"

/-- Serialize a document in its given key order (the embedding of
`json.dumps` on a `dict` without `sort_keys`). -/
def serializeDocRaw (d : Doc) : String :=
  "\x7b" ++
    String.intercalate ", "
      (d.map (fun p => "\"" ++ p.1 ++ "\": " ++ serializeJVal p.2)) ++
    "\x7d"

/-- Serialize an optional value (a canonicalized entry's payload). -/
def serializeOptJVal : Option JVal → String
  | none => "null"
  | some v => serializeJVal v

/-- Canonical form of a document: its distinct keys in sorted order, each
paired with its first binding in the document. -/
def canonicalize (d : Doc) : List (String × Option JVal) :=
  (List.insertionSort (fun a b => a ≤ b) (d.map Prod.fst).dedup).map
    (fun k => (k, lookupKey k d))

/-- Serialize a canonicalized document to a fixed textual form. -/
def serializeCanon (l : List (String × Option JVal)) : String :=
  "\x7b" ++
    String.intercalate ", "
      (l.map (fun p => "\"" ++ p.1 ++ "\": " ++ serializeOptJVal p.2)) ++
    "\x7d"

/-- Fold a string into a 64-bit accumulator with a polynomial rolling hash. -/
def stableHash (s : String) : Nat :=
  s.toList.foldl (fun h c => (h * 131 + c.toNat) % 18446744073709551616) 5381

/-- Modelled from the spec: `to_hash` lives in `rtconfig/utils.py`, which is
not among the provided sources; §4.1 of the spec prescribes "canonicalize
the document (e.g., sort keys recursively, serialize to a fixed textual
form) then apply a stable hash or digest", returning a string. -/
def to_hash (d : Doc) : String :=
  toString (stableHash (serializeCanon (canonicalize d)))

/-- The transport request attached to a message; only its headers are
observed by the core (`dict(self.request.headers)`). -/
structure Request where
  headers : List (String × String)
deriving DecidableEq

/-- Values stored in a message's `context` dictionary: request metadata,
including a possible `headers` entry holding a header dictionary. -/
inductive CtxVal where
  | str : String → CtxVal
  | headers : List (String × String) → CtxVal
deriving DecidableEq

/-- The `context` dictionary of a message. -/
abbrev Ctx := List (String × CtxVal)

/-- Message type constant `'nochange'`. -/
def MT_NO_CHANGE : String := "nochange"

/-- Message type constant `'changed'`. -/
def MT_CHANGED : String := "changed"

/-- Modelled from the spec: `strftime`/`convert_dt` live in
`rtconfig/utils.py`, not among the provided sources; the spec (§3) says the
timestamp is "normalized to a canonical printable form". Timestamps are
embedded as `Nat` and printed canonically. -/
def strftime (t : Nat) : String := toString t

/-- The `Message` value object of `manage.py`: request, message type,
config name, fingerprint, data snapshot, request context and timestamp. -/
structure Message where
  request : Request
  message_type : String
  config_name : String
  hash_code : String
  data : Doc
  context : Ctx
  lut : Nat
deriving DecidableEq

/-- Serialize a context dictionary (the embedding of
`json.dumps(context, indent=indent)`). -/
def serializeCtxVal : CtxVal → String
  | CtxVal.str s => "\"" ++ s ++ "\""
  | CtxVal.headers h =>
      "\x7b" ++
        String.intercalate ", "
          (h.map (fun p => "\"" ++ p.1 ++ "\": \"" ++ p.2 ++ "\"")) ++
      "\x7d"

/-- Serialize a context dictionary to text. -/
def serializeCtx (c : Ctx) : String :=
  "\x7b" ++
    String.intercalate ", "
      (c.map (fun p => "\"" ++ p.1 ++ "\": " ++ serializeCtxVal p.2)) ++
    "\x7d"

/-- The dictionary returned by `Message.to_dict`: its `context` slot holds
either the serialized text (when `indent` is nonzero) or the dictionary
itself. -/
structure MsgDict where
  message_type : String
  config_name : String
  hash_code : String
  data : Doc
  context : String ⊕ Ctx
  lut : String
deriving DecidableEq

/-- Embedding of `Message.to_dict`. The Python method first executes
`context = self.context; context.update(headers=dict(self.request.headers))`,
which mutates the message's own `context` dictionary in place; the
embedding therefore returns both the produced dictionary and the message as
it stands after the call. -/
def Message.to_dict (m : Message) (indent : Nat) : MsgDict × Message :=
  let context := setEntry "headers" (CtxVal.headers m.request.headers) m.context
  (MsgDict.mk m.message_type m.config_name m.hash_code m.data
    (if indent ≠ 0 then Sum.inl (serializeCtx context) else Sum.inr context)
    (strftime m.lut),
   { m with context := context })

/-- Embedding of `Message.to_string`: `json.dumps` of the compact
four-field form, reading fields without mutating them. -/
def Message.to_string (m : Message) : String :=
  "\x7b\"message_type\": \"" ++ m.message_type ++
    "\", \"config_name\": \"" ++ m.config_name ++
    "\", \"hash_code\": \"" ++ m.hash_code ++
    "\", \"data\": " ++ serializeDocRaw m.data ++ "\x7d"

/-- Failure raised by the storage backend's `read`/`write`. -/
inductive BackendError where
  | ioError : BackendError
deriving DecidableEq

/-- Behaviour of a storage backend over an abstract backend state `β`:
`read` yields the stored document, `write` may fail (returning the error
alongside whatever state the failed attempt left behind). -/
structure BackendModel (β : Type) where
  read : β → Doc
  write : β → Doc → Option BackendError × β

/-- The per-config manager: its name, its in-memory document
(`_source_data`) and the state of its storage backend. -/
structure ConfigManager (β : Type) where
  config_name : String
  source_data : Doc
  backend : β
deriving DecidableEq

/-- Embedding of `ConfigManager.refresh`:
`self._source_data = self.store_backend.read()`. -/
def ConfigManager.refresh {β : Type} (bm : BackendModel β)
    (m : ConfigManager β) : ConfigManager β :=
  { m with source_data := bm.read m.backend }

/-- Embedding of the `hash_code` property: `to_hash(self._source_data)`. -/
def ConfigManager.hash_code {β : Type} (m : ConfigManager β) : String :=
  to_hash m.source_data

/-- Embedding of `ConfigManager.update_config`: write the current document
through the backend, then `refresh`, then invoke every registered notify
handler once with the manager itself. A write failure propagates: the
result carries the error, the manager as the exception left it (no refresh
ran), and the empty list of handler invocations. Handlers are abstracted
as elements of `η`; the call list records each invocation's argument. -/
def ConfigManager.update_config {β η : Type} (bm : BackendModel β)
    (handlers : List η) (m : ConfigManager β) :
    Option BackendError × ConfigManager β × List (η × ConfigManager β) :=
  match bm.write m.backend m.source_data with
  | (some e, b') => (some e, { m with backend := b' }, [])
  | (none, b') =>
      let m2 := ConfigManager.refresh bm { m with backend := b' }
      (none, m2, handlers.map (fun h => (h, m2)))

/-- Embedding of `ConfigManager.config_message`: build a `changed` message
from the manager's current state and serialize it. -/
def ConfigManager.config_message {β : Type} (m : ConfigManager β)
    (request : Request) : String :=
  (Message.mk request MT_CHANGED m.config_name m.hash_code m.source_data
    [] 0).to_string

/-- Connections are identified abstractly. -/
abbrev Conn := Nat

/-- The "config not found" failure (`ProjectNoFoundException`). -/
structure ProjectNoFoundException where
  config_name : String
deriving DecidableEq

/-- The module-level subscriber registry: `connected` maps each config name
to its set of subscribed connections (duplicate-free list), and
`connected_message` maps each connection to the last message it holds. -/
structure Registry where
  connected : List (String × List Conn)
  connected_message : List (Conn × Message)
deriving DecidableEq

/-- Embedding of `register_connected_ws`. The `try` block looks up
`connected[message.config_name]` (a missing name raises, re-raised as
`ProjectNoFoundException`, before any mutation), adds `ws` to the set if
absent, and stores `connected_message[ws] = message`. The result carries
the error, if any, together with the registry state after the call. -/
def register_connected_ws (message : Message) (ws : Conn) (r : Registry) :
    Option ProjectNoFoundException × Registry :=
  match lookupKey message.config_name r.connected with
  | none => (some (ProjectNoFoundException.mk message.config_name), r)
  | some s =>
      let s' := if ws ∈ s then s else s ++ [ws]
      (none,
       Registry.mk (setEntry message.config_name s' r.connected)
         (setEntry ws message r.connected_message))

/-- Embedding of `remove_connected_ws`: remove `ws` from
`connected[config_name]` (a KeyError from a missing name or a missing
member is caught and ignored) and delete `connected_message[ws]` (a missing
key likewise ignored); the operation is total. -/
def remove_connected_ws (config_name : String) (ws : Conn) (r : Registry) :
    Registry :=
  let connected :=
    match lookupKey config_name r.connected with
    | none => r.connected
    | some s =>
        setEntry config_name (s.filter (fun c => c ≠ ws)) r.connected
  Registry.mk connected (eraseKey ws r.connected_message)

/-- Embedding of the `notify_changed` dispatcher: record the manager in the
global manager table, snapshot its subscriber set, and for each client send
`config_message(message.request)` exactly when the client holds a last
message whose `config_name` matches and whose `hash_code` equals the
manager's current fingerprint. The result is the updated manager table and
the list of (client, payload) sends of this broadcast pass. -/
def notify_changed {β : Type} (config_store : ConfigManager β)
    (store : List (String × ConfigManager β)) (r : Registry) :
    List (String × ConfigManager β) × List (Conn × String) :=
  let store' := setEntry config_store.config_name config_store store
  let clients := (lookupKey config_store.config_name r.connected).getD []
  (store',
   clients.filterMap (fun client =>
     match lookupKey client r.connected_message with
     | none => none
     | some message =>
         if message.config_name = config_store.config_name then
           if config_store.hash_code ≠ message.hash_code then none
           else some (client, config_store.config_message message.request)
         else none))

/-- One registry operation: a registration or a removal. -/
inductive RegOp where
  | reg : Message → Conn → RegOp
  | rem : String → Conn → RegOp

/-- Apply one registry operation; a failed registration leaves the state
the exception left behind (which is the unchanged registry). -/
def applyOp (op : RegOp) (r : Registry) : Registry :=
  match op with
  | RegOp.reg msg ws => (register_connected_ws msg ws r).2
  | RegOp.rem cn ws => remove_connected_ws cn ws r

/-- Apply a finite sequence of registry operations in order. -/
def applyOps (ops : List RegOp) (r : Registry) : Registry :=
  ops.foldl (fun r op => applyOp op r) r

/-- The registry consistency invariant: every connection holding a last
message is a member of the subscriber set of that message's config name. -/
def Registry.Invariant (r : Registry) : Prop :=
  ∀ ws msg, lookupKey ws r.connected_message = some msg →
    ∃ s, lookupKey msg.config_name r.connected = some s ∧ ws ∈ s

/-- A concrete transport request used in concrete evaluations. -/
def reqW : Request := Request.mk [("host", "localhost")]

/-- A concrete message subscribed to config `app`. -/
def msgW : Message := Message.mk reqW MT_CHANGED "app" "h1" [] [] 0

/-- A concrete message naming a config absent from the registry. -/
def msgU : Message := Message.mk reqW MT_CHANGED "missing" "h1" [] [] 0

/-- A concrete registry with config `app` and one subscriber. -/
def rW : Registry := Registry.mk [("app", [5])] []

/-- A concrete registry with two subscribers, one holding a last message. -/
def rW2 : Registry := Registry.mk [("app", [5, 7])] [(5, msgW)]

/-- A backend whose every write fails. -/
def bmFail : BackendModel Unit :=
  BackendModel.mk (fun _ => []) (fun _ _ => (some BackendError.ioError, ()))

/-- A manager wired to the failing backend. -/
def mFail : ConfigManager Unit :=
  ConfigManager.mk "app" [("a", JVal.num 1)] ()

/-- A faithful backend whose state is the stored document itself. -/
def bmId : BackendModel Doc :=
  BackendModel.mk (fun b => b) (fun _ d => (none, d))

/-- A manager wired to the faithful backend. -/
def mId : ConfigManager Doc := ConfigManager.mk "app" [] []

/-- A concrete document to update with. -/
def docD : Doc := [("a", JVal.num 1)]

/-- A concrete two-key document. -/
def docA : Doc := [("b", JVal.num 2), ("a", JVal.str "x")]

/-- The same content as `docA` with the key order reversed. -/
def docB : Doc := [("a", JVal.str "x"), ("b", JVal.num 2)]

/-- Looking up the key just set yields the value just set. -/
theorem lookupKey_setEntry_self {κ α : Type} [DecidableEq κ] (k : κ) (v : α)
    (l : List (κ × α)) : lookupKey k (setEntry k v l) = some v := by
  induction l with
  | nil => simp [setEntry, lookupKey]
  | cons x rest ih =>
      by_cases h : x.1 = k
      · simp [setEntry, lookupKey, h]
      · obtain ⟨x1, x2⟩ := x
        simp only at h
        simp [setEntry, lookupKey, h, ih]

/-- Setting one key leaves lookups of other keys unchanged. -/
theorem lookupKey_setEntry_ne {κ α : Type} [DecidableEq κ] {k k' : κ}
    (v : α) (l : List (κ × α)) (h : k' ≠ k) :
    lookupKey k' (setEntry k v l) = lookupKey k' l := by
  induction l with
  | nil => simp [setEntry, lookupKey, Ne.symm h]
  | cons x rest ih =>
      obtain ⟨x1, x2⟩ := x
      by_cases hx : x1 = k
      · subst hx
        simp [setEntry, lookupKey, Ne.symm h]
      · simp [setEntry, lookupKey, hx, ih]

/-- Writing the same binding twice equals writing it once. -/
theorem setEntry_setEntry_same {κ α : Type} [DecidableEq κ] (k : κ) (v : α)
    (l : List (κ × α)) : setEntry k v (setEntry k v l) = setEntry k v l := by
  induction l with
  | nil => simp [setEntry]
  | cons x rest ih =>
      obtain ⟨x1, x2⟩ := x
      by_cases hx : x1 = k
      · simp [setEntry, hx]
      · simp [setEntry, hx, ih]

/-- A deleted key is no longer found. -/
theorem lookupKey_eraseKey_self {κ α : Type} [DecidableEq κ] (k : κ)
    (l : List (κ × α)) : lookupKey k (eraseKey k l) = none := by
  induction l with
  | nil => rfl
  | cons x rest ih =>
      obtain ⟨x1, x2⟩ := x
      by_cases hx : x1 = k
      · simpa [eraseKey, hx] using ih
      · simpa [eraseKey, lookupKey, hx] using ih

/-- Deleting one key leaves lookups of other keys unchanged. -/
theorem lookupKey_eraseKey_ne {κ α : Type} [DecidableEq κ] {k k' : κ}
    (l : List (κ × α)) (h : k' ≠ k) :
    lookupKey k' (eraseKey k l) = lookupKey k' l := by
  induction l with
  | nil => rfl
  | cons x rest ih =>
      obtain ⟨x1, x2⟩ := x
      by_cases hx : x1 = k
      · subst hx
        simpa [eraseKey, lookupKey, Ne.symm h] using ih
      · by_cases hx' : x1 = k'
        · simp [eraseKey, lookupKey, hx, hx', h]
        · simpa [eraseKey, lookupKey, hx, hx'] using ih

/-- Deleting a key twice equals deleting it once. -/
theorem eraseKey_eraseKey {κ α : Type} [DecidableEq κ] (k : κ)
    (l : List (κ × α)) : eraseKey k (eraseKey k l) = eraseKey k l := by
  simp [eraseKey, List.filter_filter]

/-- Membership in a set after discarding an element. -/
theorem mem_filter_ne {c ws : RtConfig.Conn} {s : List RtConfig.Conn} :
    c ∈ s.filter (fun c => c ≠ ws) ↔ c ∈ s ∧ c ≠ ws := by
  simp [List.mem_filter]

/-- The discarded element is gone from the set. -/
theorem not_mem_filter_ne_self (ws : RtConfig.Conn) (s : List RtConfig.Conn) :
    ws ∉ s.filter (fun c => c ≠ ws) := by
  simp [List.mem_filter]

/-- Discarding an absent element leaves the set unchanged. -/
theorem filter_ne_of_not_mem {ws : RtConfig.Conn} {s : List RtConfig.Conn}
    (h : ws ∉ s) : s.filter (fun c => c ≠ ws) = s := by
  apply List.filter_eq_self.mpr
  intro a ha
  simp only [decide_eq_true_eq]
  exact fun hc => h (hc ▸ ha)

/-- Discarding an element twice equals discarding it once. -/
theorem filter_ne_filter_ne (ws : RtConfig.Conn) (s : List RtConfig.Conn) :
    (s.filter (fun c => c ≠ ws)).filter (fun c => c ≠ ws) =
      s.filter (fun c => c ≠ ws) := by
  simp [List.filter_filter]

/-- A lookup misses exactly when no entry bears the key. -/
theorem lookupKey_none_iff {κ α : Type} [DecidableEq κ] {k : κ}
    {l : List (κ × α)} :
    lookupKey k l = none ↔ ∀ p ∈ l, p.1 ≠ k := by
  induction l with
  | nil => simp [lookupKey]
  | cons x rest ih =>
      obtain ⟨x1, x2⟩ := x
      by_cases hx : x1 = k
      · simp [lookupKey, hx]
      · simp [lookupKey, hx, ih]

/-- A key that is not found binds nothing, so deleting it is a no-op. -/
theorem eraseKey_of_lookupKey_none {κ α : Type} [DecidableEq κ] {k : κ}
    {l : List (κ × α)} (h : lookupKey k l = none) : eraseKey k l = l := by
  unfold eraseKey
  apply List.filter_eq_self.mpr
  intro p hp
  simpa using (lookupKey_none_iff.mp h) p hp

/-- First-occurrence lookup is invariant under permutation of an
association list whose keys are distinct. -/
theorem lookupKey_perm {κ α : Type} [DecidableEq κ] {l₁ l₂ : List (κ × α)}
    (p : l₁.Perm l₂) :
    (l₁.map Prod.fst).Nodup → ∀ k, lookupKey k l₁ = lookupKey k l₂ := by
  induction p with
  | nil => intro _ _; rfl
  | cons x p ih =>
      intro nd k
      obtain ⟨x1, x2⟩ := x
      simp only [List.map_cons, List.nodup_cons] at nd
      by_cases hx : x1 = k
      · simp [lookupKey, hx]
      · simp [lookupKey, hx, ih nd.2 k]
  | swap x y l =>
      intro nd k
      obtain ⟨x1, x2⟩ := x
      obtain ⟨y1, y2⟩ := y
      simp only [List.map_cons, List.nodup_cons, List.mem_cons] at nd
      have hyx : y1 ≠ x1 := fun hh => nd.1 (Or.inl hh)
      by_cases h1 : y1 = k <;> by_cases h2 : x1 = k
      · exact absurd (h1.trans h2.symm) hyx
      · simp [lookupKey, h1, h2]
      · simp [lookupKey, h1, h2]
      · simp [lookupKey, h1, h2]
  | trans p₁ p₂ ih₁ ih₂ =>
      intro nd k
      have nd₂ := ((p₁.map Prod.fst).nodup_iff).mp nd
      rw [ih₁ nd k, ih₂ nd₂ k]

/-- Canonicalization is invariant under permutation of a document whose
keys are distinct: the sorted distinct key list and the per-key lookups
both agree. -/
theorem canonicalize_perm {l₁ l₂ : Doc} (p : l₁.Perm l₂)
    (nd : (l₁.map Prod.fst).Nodup) : canonicalize l₁ = canonicalize l₂ := by
  have hkeys : ((l₁.map Prod.fst).dedup).Perm ((l₂.map Prod.fst).dedup) :=
    (p.map Prod.fst).dedup
  have hs₁ : List.Sorted (fun a b : String => a ≤ b)
      (List.insertionSort (fun a b => a ≤ b) (l₁.map Prod.fst).dedup) :=
    List.sorted_insertionSort _ _
  have hs₂ : List.Sorted (fun a b : String => a ≤ b)
      (List.insertionSort (fun a b => a ≤ b) (l₂.map Prod.fst).dedup) :=
    List.sorted_insertionSort _ _
  have hperm :
      (List.insertionSort (fun a b => a ≤ b) (l₁.map Prod.fst).dedup).Perm
        (List.insertionSort (fun a b => a ≤ b) (l₂.map Prod.fst).dedup) :=
    ((List.perm_insertionSort _ _).trans hkeys).trans
      (List.perm_insertionSort _ _).symm
  have hsorted := List.eq_of_perm_of_sorted hperm hs₁ hs₂
  have hfun : (fun k => (k, lookupKey k l₁)) = fun k => (k, lookupKey k l₂) :=
    funext fun k => by rw [lookupKey_perm p nd k]
  unfold canonicalize
  rw [hsorted, hfun]

/-- Registration preserves the registry consistency invariant. -/
theorem invariant_register (msg : Message) (ws : Conn) (r : Registry)
    (h : r.Invariant) : ((register_connected_ws msg ws r).2).Invariant := by
  rcases hlk : lookupKey msg.config_name r.connected with _ | s
  · simpa [register_connected_ws, hlk] using h
  · unfold Registry.Invariant
    intro ws' msg' hl'
    simp only [register_connected_ws, hlk] at hl' ⊢
    by_cases hws : ws' = ws
    · subst hws
      rw [lookupKey_setEntry_self] at hl'
      injection hl' with hmsg
      subst hmsg
      refine ⟨_, lookupKey_setEntry_self _ _ _, ?_⟩
      by_cases hm : ws' ∈ s <;> simp [hm]
    · rw [lookupKey_setEntry_ne _ _ hws] at hl'
      obtain ⟨t, ht, hmem⟩ := h ws' msg' hl'
      by_cases hcn : msg'.config_name = msg.config_name
      · rw [hcn] at ht ⊢
        rw [hlk] at ht
        injection ht with hst
        subst hst
        refine ⟨_, lookupKey_setEntry_self _ _ _, ?_⟩
        by_cases hm : ws ∈ s <;> simp [hm, hmem]
      · rw [lookupKey_setEntry_ne _ _ hcn]
        exact ⟨t, ht, hmem⟩

/-- Removal preserves the registry consistency invariant. -/
theorem invariant_remove (cn : String) (ws : Conn) (r : Registry)
    (h : r.Invariant) : (remove_connected_ws cn ws r).Invariant := by
  rcases hlk : lookupKey cn r.connected with _ | s
  · unfold Registry.Invariant
    intro ws' msg' hl'
    simp only [remove_connected_ws, hlk] at hl' ⊢
    by_cases hws : ws' = ws
    · subst hws
      rw [lookupKey_eraseKey_self] at hl'
      cases hl'
    · rw [lookupKey_eraseKey_ne _ hws] at hl'
      exact h ws' msg' hl'
  · unfold Registry.Invariant
    intro ws' msg' hl'
    simp only [remove_connected_ws, hlk] at hl' ⊢
    by_cases hws : ws' = ws
    · subst hws
      rw [lookupKey_eraseKey_self] at hl'
      cases hl'
    · rw [lookupKey_eraseKey_ne _ hws] at hl'
      obtain ⟨t, ht, hmem⟩ := h ws' msg' hl'
      by_cases hcn : msg'.config_name = cn
      · rw [hcn] at ht ⊢
        rw [hlk] at ht
        injection ht with hst
        subst hst
        refine ⟨_, lookupKey_setEntry_self _ _ _, ?_⟩
        exact mem_filter_ne.mpr ⟨hmem, hws⟩
      · rw [lookupKey_setEntry_ne _ _ hcn]
        exact ⟨t, ht, hmem⟩

/-- Each single registry operation preserves the consistency invariant. -/
theorem invariant_applyOp (op : RegOp) (r : Registry) (h : r.Invariant) :
    (applyOp op r).Invariant := by
  cases op with
  | reg msg ws => exact invariant_register msg ws r h
  | rem cn ws => exact invariant_remove cn ws r h

/-- C5: `register_connected_ws` fails with the config-not-found error exactly
when the message's config name has no subscriber-set entry; otherwise it
adds the connection to that config's subscriber set (a no-op when already
present, so registering twice equals registering once) and stores the given
message as the connection's last message on every successful call. -/
theorem register_connected_ws_spec (msg : Message) (ws : Conn) (r : Registry) :
    ((register_connected_ws msg ws r).1 =
        some (ProjectNoFoundException.mk msg.config_name) ↔
      lookupKey msg.config_name r.connected = none) ∧
      ∀ s, lookupKey msg.config_name r.connected = some s →
        (∃ s', lookupKey msg.config_name
              ((register_connected_ws msg ws r).2).connected = some s' ∧
            ws ∈ s' ∧ ∀ c ∈ s, c ∈ s') ∧
          lookupKey ws
              ((register_connected_ws msg ws r).2).connected_message =
            some msg ∧
          register_connected_ws msg ws ((register_connected_ws msg ws r).2) =
            register_connected_ws msg ws r := by
  rcases hlk : lookupKey msg.config_name r.connected with _ | s₀
  · constructor
    · exact ⟨fun _ => rfl, fun _ => by simp [register_connected_ws, hlk]⟩
    · intro s hs
      exact Option.noConfusion hs
  · constructor
    · constructor
      · intro habs
        simp [register_connected_ws, hlk] at habs
      · intro habs
        exact absurd habs (by simp)
    · intro s hs
      injection hs with hss
      subst hss
      have hreg : (register_connected_ws msg ws r).2 =
          Registry.mk
            (setEntry msg.config_name (if ws ∈ s₀ then s₀ else s₀ ++ [ws])
              r.connected)
            (setEntry ws msg r.connected_message) := by
        simp [register_connected_ws, hlk]
      rw [hreg]
      refine ⟨⟨if ws ∈ s₀ then s₀ else s₀ ++ [ws],
          lookupKey_setEntry_self _ _ _, ?_, ?_⟩,
        lookupKey_setEntry_self _ _ _, ?_⟩
      · by_cases hm : ws ∈ s₀ <;> simp [hm]
      · intro c hc
        by_cases hm : ws ∈ s₀ <;> simp [hm, hc]
      · have hlk2 : lookupKey msg.config_name
            (setEntry msg.config_name (if ws ∈ s₀ then s₀ else s₀ ++ [ws])
              r.connected) =
            some (if ws ∈ s₀ then s₀ else s₀ ++ [ws]) :=
          lookupKey_setEntry_self _ _ _
        have hmem2 : ws ∈ (if ws ∈ s₀ then s₀ else s₀ ++ [ws]) := by
          by_cases hm : ws ∈ s₀ <;> simp [hm]
        simp [register_connected_ws, hlk, hlk2, hmem2, setEntry_setEntry_same]

/-- C5 witness: registering a fresh connection against the known config
`app` succeeds and stores its last message. -/
theorem register_connected_ws_spec_witness :
    lookupKey msgW.config_name rW.connected = some [5] ∧
      lookupKey (7 : Conn)
          ((register_connected_ws msgW 7 rW).2).connected_message =
        some msgW :=
  ⟨rfl, (((register_connected_ws_spec msgW 7 rW).2 [5] rfl).2.1)⟩

/-- C6: `remove_connected_ws` is total (it never raises), deletes the
connection from the named subscriber set and from the last-message map when
present, silently no-ops on whatever is absent, and removing twice equals
removing once. -/
theorem remove_connected_ws_spec (config_name : String) (ws : Conn)
    (r : Registry) :
    lookupKey ws (remove_connected_ws config_name ws r).connected_message =
        none ∧
      (lookupKey ws r.connected_message = none →
        (remove_connected_ws config_name ws r).connected_message =
          r.connected_message) ∧
      (∀ s, lookupKey config_name r.connected = some s →
        lookupKey config_name
              (remove_connected_ws config_name ws r).connected =
            some (s.filter (fun c => c ≠ ws)) ∧
          ws ∉ s.filter (fun c => c ≠ ws) ∧
          (ws ∉ s → s.filter (fun c => c ≠ ws) = s)) ∧
      (lookupKey config_name r.connected = none →
        (remove_connected_ws config_name ws r).connected = r.connected) ∧
      remove_connected_ws config_name ws
          (remove_connected_ws config_name ws r) =
        remove_connected_ws config_name ws r := by
  refine ⟨?_, ?_, ?_, ?_, ?_⟩
  · simp only [remove_connected_ws]
    exact lookupKey_eraseKey_self _ _
  · intro h
    simp only [remove_connected_ws]
    exact eraseKey_of_lookupKey_none h
  · intro s hs
    refine ⟨?_, not_mem_filter_ne_self _ _, fun hns => filter_ne_of_not_mem hns⟩
    simp only [remove_connected_ws, hs]
    exact lookupKey_setEntry_self _ _ _
  · intro h
    simp [remove_connected_ws, h]
  · rcases hlk : lookupKey config_name r.connected with _ | s
    · simp [remove_connected_ws, hlk, eraseKey_eraseKey]
    · simp [remove_connected_ws, hlk, lookupKey_setEntry_self,
        filter_ne_filter_ne, setEntry_setEntry_same, eraseKey_eraseKey]

/-- C6 witness: concrete removal of a subscribed connection that holds a
last message. -/
theorem remove_connected_ws_spec_witness :
    lookupKey "app" rW2.connected = some [5, 7] ∧
      lookupKey "app" (remove_connected_ws "app" 5 rW2).connected =
          some ([5, 7].filter (fun c => c ≠ 5)) ∧
        lookupKey (5 : Conn)
            (remove_connected_ws "app" 5 rW2).connected_message = none :=
  ⟨rfl, ((remove_connected_ws_spec "app" 5 rW2).2.2.1 [5, 7] rfl).1,
    (remove_connected_ws_spec "app" 5 rW2).1⟩

/-- C7: after any finite sequence of register and remove operations starting
from a registry satisfying the consistency invariant, every connection that
is a key of the last-message map is a member of the subscriber set of the
config name recorded in its stored message. -/
theorem applyOps_preserves_invariant (ops : List RegOp) (r : Registry)
    (h : r.Invariant) : (applyOps ops r).Invariant := by
  induction ops generalizing r with
  | nil => exact h
  | cons op rest ih => exact ih (applyOp op r) (invariant_applyOp op r h)

/-- C7 witness: the invariant survives a concrete register-then-remove run
starting from a registry with an empty last-message map. -/
theorem applyOps_preserves_invariant_witness :
    (applyOps [RegOp.reg msgW 5, RegOp.rem "app" 5] rW).Invariant :=
  applyOps_preserves_invariant [RegOp.reg msgW 5, RegOp.rem "app" 5] rW
    (fun ws msg h => absurd h (by simp [rW, lookupKey]))

/-- C8: for a message with a known config name, registering a connection and
then immediately removing it leaves the connection absent from that
config's subscriber set and absent from the last-message map. -/
theorem register_then_remove_absent (msg : Message) (ws : Conn) (r : Registry)
    (s : List Conn) (h : lookupKey msg.config_name r.connected = some s) :
    (∃ t, lookupKey msg.config_name
          (remove_connected_ws msg.config_name ws
            ((register_connected_ws msg ws r).2)).connected = some t ∧
        ws ∉ t) ∧
      lookupKey ws
          (remove_connected_ws msg.config_name ws
            ((register_connected_ws msg ws r).2)).connected_message =
        none := by
  have hreg : (register_connected_ws msg ws r).2 =
      Registry.mk
        (setEntry msg.config_name (if ws ∈ s then s else s ++ [ws])
          r.connected)
        (setEntry ws msg r.connected_message) := by
    simp [register_connected_ws, h]
  rw [hreg]
  have hlk2 : lookupKey msg.config_name
      (setEntry msg.config_name (if ws ∈ s then s else s ++ [ws])
        r.connected) =
      some (if ws ∈ s then s else s ++ [ws]) := lookupKey_setEntry_self _ _ _
  constructor
  · refine ⟨(if ws ∈ s then s else s ++ [ws]).filter (fun c => c ≠ ws),
      ?_, not_mem_filter_ne_self _ _⟩
    simp only [remove_connected_ws, hlk2]
    exact lookupKey_setEntry_self _ _ _
  · simp only [remove_connected_ws]
    exact lookupKey_eraseKey_self _ _

/-- C8 witness: concrete register-then-remove leaves the connection out of
both maps. -/
theorem register_then_remove_absent_witness :
    lookupKey msgW.config_name rW.connected = some [5] ∧
      (∃ t, lookupKey msgW.config_name
            (remove_connected_ws msgW.config_name 7
              ((register_connected_ws msgW 7 rW).2)).connected = some t ∧
          (7 : Conn) ∉ t) ∧
        lookupKey (7 : Conn)
            (remove_connected_ws msgW.config_name 7
              ((register_connected_ws msgW 7 rW).2)).connected_message =
          none :=
  ⟨rfl, register_then_remove_absent msgW 7 rW [5] rfl⟩

/-- C10: registering against an unknown config name raises the
config-not-found error before any mutation: both the subscriber map and the
last-message map are exactly as they were before the call. -/
theorem register_unknown_config_atomic (msg : Message) (ws : Conn)
    (r : Registry) (h : lookupKey msg.config_name r.connected = none) :
    (register_connected_ws msg ws r).1 =
        some (ProjectNoFoundException.mk msg.config_name) ∧
      (register_connected_ws msg ws r).2 = r := by
  simp [register_connected_ws, h]

/-- C10 witness: a concrete unknown config name leaves the registry intact. -/
theorem register_unknown_config_atomic_witness :
    lookupKey msgU.config_name rW.connected = none ∧
      (register_connected_ws msgU 7 rW).1 =
          some (ProjectNoFoundException.mk msgU.config_name) ∧
        (register_connected_ws msgU 7 rW).2 = rW :=
  ⟨rfl, register_unknown_config_atomic msgU 7 rW rfl⟩

/-- C1: during one broadcast pass of `notify_changed` triggered by an
update of manager `M`, a connection in `M`'s subscriber set is sent a
message if and only if it holds a stored last message whose `config_name`
equals `M`'s config name and whose `hash_code` equals `M`'s current
fingerprint; every other connection (missing last message, mismatched
config name, or differing fingerprint) receives nothing. -/
theorem notify_changed_send_iff {β : Type} (M : ConfigManager β)
    (store : List (String × ConfigManager β)) (r : Registry) (c : Conn) :
    (∃ payload, (c, payload) ∈ (notify_changed M store r).2) ↔
      c ∈ (lookupKey M.config_name r.connected).getD [] ∧
        ∃ msg, lookupKey c r.connected_message = some msg ∧
          msg.config_name = M.config_name ∧ msg.hash_code = M.hash_code := by
  constructor
  · rintro ⟨payload, hp⟩
    simp only [notify_changed, List.mem_filterMap] at hp
    obtain ⟨a, ha, hfa⟩ := hp
    rcases hlk : lookupKey a r.connected_message with _ | msg
    · rw [hlk] at hfa
      simp at hfa
    · rw [hlk] at hfa
      by_cases hcn : msg.config_name = M.config_name
      · by_cases hh : M.hash_code = msg.hash_code
        · simp [hcn, hh] at hfa
          obtain ⟨hac, hpay⟩ := hfa
          subst hac
          exact ⟨ha, msg, hlk, hcn, hh.symm⟩
        · simp [hcn, hh] at hfa
      · simp [hcn] at hfa
  · rintro ⟨hc, msg, hlk, hcn, hh⟩
    refine ⟨M.config_message msg.request, ?_⟩
    simp only [notify_changed, List.mem_filterMap]
    refine ⟨c, hc, ?_⟩
    simp [hlk, hcn, hh]

/-- C2 counterexample: calling `to_dict` changes the message's `context`
field in place (it inserts the request headers), so not every field equals
its construction-time value. -/
theorem message_to_dict_changes_context :
    ((Message.mk (Request.mk [("h", "v")]) MT_CHANGED "app" "x" [] [] 0).to_dict
        0).2.context ≠
      (Message.mk (Request.mk [("h", "v")]) MT_CHANGED "app" "x" [] [] 0).context := by
  decide

/-- C2 (amended): `to_string` is a pure read, and `to_dict` leaves
`message_type`, `config_name`, `hash_code`, `data`, `lut` and `request` at
their construction-time values, while `context` becomes the old context
with the request headers stored under the key `"headers"`. -/
theorem message_to_dict_frame :
    ∀ (m : Message) (indent : Nat),
      (m.to_dict indent).2.message_type = m.message_type ∧
        (m.to_dict indent).2.config_name = m.config_name ∧
        (m.to_dict indent).2.hash_code = m.hash_code ∧
        (m.to_dict indent).2.data = m.data ∧
        (m.to_dict indent).2.lut = m.lut ∧
        (m.to_dict indent).2.request = m.request ∧
        (m.to_dict indent).2.context =
          setEntry "headers" (CtxVal.headers m.request.headers) m.context := by
  intro m indent
  simp [Message.to_dict]

/-- C3: if the backend write raises during `update_config`, the error
propagates and the manager's document and fingerprint equal their values
before the call — no partial state is committed on a failed write. -/
theorem update_config_write_failure_preserves_state {β η : Type}
    (bm : BackendModel β) (handlers : List η) (m : ConfigManager β)
    (e : BackendError)
    (h : (ConfigManager.update_config bm handlers m).1 = some e) :
    (ConfigManager.update_config bm handlers m).2.1.source_data =
        m.source_data ∧
      (ConfigManager.update_config bm handlers m).2.1.hash_code =
        m.hash_code := by
  rcases hw : bm.write m.backend m.source_data with ⟨err, b'⟩
  cases err with
  | none => simp [ConfigManager.update_config, hw] at h
  | some e' => simp [ConfigManager.update_config, hw, ConfigManager.hash_code]

/-- C3 witness: a concrete failing write leaves document and fingerprint
untouched. -/
theorem update_config_write_failure_witness :
    (ConfigManager.update_config bmFail ([] : List Unit) mFail).1 =
        some BackendError.ioError ∧
      (ConfigManager.update_config bmFail ([] : List Unit) mFail).2.1.source_data =
          mFail.source_data ∧
        (ConfigManager.update_config bmFail ([] : List Unit) mFail).2.1.hash_code =
          mFail.hash_code :=
  ⟨rfl, update_config_write_failure_preserves_state bmFail [] mFail
    BackendError.ioError rfl⟩

/-- C4: with a faithful backend (read after successful write returns the
written document), updating with document `D` — set `source_data` to `D`
and call `update_config` — succeeds, re-reads the post-write document from
the backend rather than keeping the caller's value, yields a document equal
to `D`, and invokes each registered notify handler exactly once with the
manager itself. -/
theorem update_config_round_trip {β η : Type} (bm : BackendModel β)
    (handlers : List η) (m : ConfigManager β) (D : Doc)
    (hfaithful : ∀ b d b', bm.write b d = (none, b') → bm.read b' = d)
    (hsucc : (bm.write m.backend D).1 = none) :
    (ConfigManager.update_config bm handlers
          { m with source_data := D }).1 = none ∧
      (ConfigManager.update_config bm handlers
            { m with source_data := D }).2.1.source_data =
          bm.read (ConfigManager.update_config bm handlers
            { m with source_data := D }).2.1.backend ∧
        (ConfigManager.update_config bm handlers
              { m with source_data := D }).2.1.source_data = D ∧
          (ConfigManager.update_config bm handlers
                { m with source_data := D }).2.2 =
            handlers.map (fun h =>
              (h, (ConfigManager.update_config bm handlers
                { m with source_data := D }).2.1)) := by
  rcases hw : bm.write m.backend D with ⟨err, b'⟩
  have herr : err = none := by rw [hw] at hsucc; exact hsucc
  subst herr
  have hread := hfaithful m.backend D b' hw
  simp [ConfigManager.update_config, ConfigManager.refresh, hw, hread]

/-- C4 witness: a round trip through the concrete faithful backend. -/
theorem update_config_round_trip_witness :
    (bmId.write mId.backend docD).1 = none ∧
      (ConfigManager.update_config bmId ([0] : List Nat)
          { mId with source_data := docD }).2.1.source_data = docD :=
  ⟨rfl, (update_config_round_trip bmId [0] mId docD
      (fun b d b' h => by simp [bmId] at h ⊢; simp [h]) rfl).2.2.1⟩

/-- C9: the fingerprint is a pure function of document content and is
independent of key insertion order: permuting a document with distinct keys
leaves `to_hash`, and with it every manager's `hash_code`, unchanged. -/
theorem to_hash_key_order_independent (A B : Doc)
    (nd : (A.map Prod.fst).Nodup) (p : A.Perm B) :
    to_hash A = to_hash B ∧
      ∀ (n : String), (ConfigManager.mk n A Unit.unit).hash_code =
        (ConfigManager.mk n B Unit.unit).hash_code := by
  have hh : to_hash A = to_hash B := by
    unfold to_hash
    rw [canonicalize_perm p nd]
  exact ⟨hh, fun n => hh⟩

/-- C9 witness: two concrete documents with the same content in different
key order have equal fingerprints. -/
theorem to_hash_key_order_independent_witness :
    ((docA.map Prod.fst).Nodup ∧ docA.Perm docB) ∧
      to_hash docA = to_hash docB :=
  ⟨⟨by decide, List.Perm.swap _ _ _⟩,
    (to_hash_key_order_independent docA docB (by decide)
      (List.Perm.swap _ _ _)).1⟩

end RtConfig
